import Mathlib

/-!
Verification of the SABnzbd download-loop-prevention scripts.

Shallow embedding of the store handling, identity matching, admission gate
and completion reporter from:
  - `loop_prevention_shared.py` (`clean_old_entries`)
  - `prevent_download_loops_prequeue.py` (`PreQueueLoopPrevention`)
  - `prevent_download_loops_postprocess.py` (`PostProcessLoopPrevention`)

The store is modelled as a list of lines (terminator-free strings); every
store access in the scripts reads lines, strips them and splits on `|`,
which is mirrored here character-by-character.
-/

namespace LoopPrevention

/-! ### Python string primitives

`str.strip()`, `str.split('|')`, `int(str)` and `str(int)` as used by the
scripts, modelled over `List Char`.  `int(...)` is modelled for ASCII
digit strings with optional sign and surrounding whitespace, which covers
every value the scripts themselves write.
-/

/-- The whitespace characters removed by Python `str.strip()` (ASCII range). -/
def isPyWs (c : Char) : Bool :=
  c = ' ' || c = '\t' || c = '\n' || c = '\r' || c = '\x0b' || c = '\x0c'

/-- Python `str.strip()` on a character list. -/
def stripChars (cs : List Char) : List Char :=
  ((cs.dropWhile isPyWs).reverse.dropWhile isPyWs).reverse

/-- Python `str.split('|')` on a character list. -/
def splitPipe : List Char → List (List Char)
  | [] => [[]]
  | c :: rest =>
    if c = '|' then [] :: splitPipe rest
    else
      match splitPipe rest with
      | [] => [[c]]
      | f :: fs => (c :: f) :: fs

/-- `line.strip().split('|')`, the parse step every store access performs. -/
def lineParts (line : String) : List String :=
  (splitPipe (stripChars line.data)).map String.mk

/-- Numeric value of a decimal digit character. -/
def digitVal (c : Char) : Nat := c.toNat - 48

/-- Value of a big-endian decimal digit list. -/
def digitsToNat (cs : List Char) : Nat :=
  cs.foldl (fun a c => a * 10 + digitVal c) 0

/-- Python `int(s)`: strips whitespace, accepts an optional sign followed by
decimal digits, raises (here: `none`) otherwise. -/
def pyInt (s : String) : Option Int :=
  match stripChars s.data with
  | '-' :: rest =>
    if rest ≠ [] && rest.all Char.isDigit then some (-(digitsToNat rest : Int)) else none
  | '+' :: rest =>
    if rest ≠ [] && rest.all Char.isDigit then some ((digitsToNat rest : Int)) else none
  | cs =>
    if cs ≠ [] && cs.all Char.isDigit then some ((digitsToNat cs : Int)) else none

/-- Decimal digit character for `n < 10`. -/
def digitChar (n : Nat) : Char := Char.ofNat (48 + n)

/-- Fuel-driven decimal rendering of a natural number (big-endian). -/
def natCharsAux (fuel n : Nat) : List Char :=
  match fuel with
  | 0 => []
  | fuel' + 1 =>
    if n < 10 then [digitChar n]
    else natCharsAux fuel' (n / 10) ++ [digitChar (n % 10)]

/-- Python `str(n)` for a natural number. -/
def natChars (n : Nat) : List Char := natCharsAux (n + 1) n

/-- Python `str(i)` for an integer. -/
def intChars (i : Int) : List Char :=
  if i < 0 then '-' :: natChars i.natAbs else natChars i.toNat

/-! ### Record codec -/

/-- One parsed history record: `timestamp|category|name|duplicate_key|status`. -/
structure HistoryRecord where
  timestamp : Int
  category : String
  nzbName : String
  dupKey : String
  status : String
deriving DecidableEq

/-- The line written for a record, before the terminator: the f-string
`f"{timestamp}|{category}|{name}|{dupe_key}|{status}"` used by
`add_to_history` and `update_status`. -/
def encodeRecord (r : HistoryRecord) : String :=
  String.mk (intChars r.timestamp) ++ "|" ++ r.category ++ "|" ++ r.nzbName ++ "|"
    ++ r.dupKey ++ "|" ++ r.status

/-- The full physical line: record text plus `os.linesep` (`"\n"` on the
target platform). -/
def encodeLine (r : HistoryRecord) : String := encodeRecord r ++ "\n"

/-- First five pipe-delimited fields of a stripped line, or `none` when the
line has fewer than five fields (`len(parts) < 5`). -/
def parseFields (line : String) : Option (String × String × String × String × String) :=
  match lineParts line with
  | t :: c :: n :: k :: s :: _ => some (t, c, n, k, s)
  | _ => none

/-- Decoding a store line into a record: five fields with an integer first
field, per the parse in `check_duplicate` / `clean_old_entries`. -/
def recordOfLine (line : String) : Option HistoryRecord :=
  match parseFields line with
  | some (t, c, n, k, s) =>
    match pyInt t with
    | some ts => some ⟨ts, c, n, k, s⟩
    | none => none
  | none => none

/-! ### Expiry sweeper (`clean_old_entries` in `loop_prevention_shared.py`) -/

/-- The per-line keep test of `clean_old_entries`: at least four fields,
an integer first field, and `current_time - timestamp < time_window_seconds`. -/
def keepEntry (timeWindowSeconds currentTime : Int) (line : String) : Bool :=
  let parts := lineParts line
  if parts.length < 4 then false
  else
    match pyInt (parts.headD "") with
    | some ts => currentTime - ts < timeWindowSeconds
    | none => false

/-- `clean_old_entries`: rewrite the store keeping only the lines `keepEntry`
accepts. -/
def cleanOldEntries (timeWindowSeconds currentTime : Int) (lines : List String) : List String :=
  lines.filter (keepEntry timeWindowSeconds currentTime)

/-! ### Admission gate (`prevent_download_loops_prequeue.py`) -/

/-- Configuration fields consulted by the pre-queue script. -/
structure PreConfig where
  timeWindowSeconds : Int
  useDuplicateKey : Bool
  ignoredCategories : List String
  ignoreNoCategory : Bool
deriving DecidableEq

/-- SABnzbd environment fields consulted by the pre-queue script. -/
structure PreEnv where
  nzbName : String
  category : String
  duplicateKey : String
deriving DecidableEq

/-- The per-record identity test of `check_duplicate`: match by duplicate
key (when enabled and both keys non-empty), else by exact name only when
the incoming duplicate key is empty. -/
def preMatches (cfg : PreConfig) (env : PreEnv) (nm dupeKey : String) : Bool :=
  if cfg.useDuplicateKey && env.duplicateKey != "" && dupeKey != ""
      && dupeKey == env.duplicateKey then true
  else if env.duplicateKey == "" && nm == env.nzbName then true
  else false

/-- The scan of `check_duplicate`: first matching record with a parseable
timestamp inside the window decides; `SUCCESS`/`PENDING`/unknown block
(`true`), `FAILED` admits (`false`); otherwise keep scanning. -/
def checkDuplicateLines (cfg : PreConfig) (env : PreEnv) (now : Int) : List String → Bool
  | [] => false
  | line :: rest =>
    match parseFields line with
    | some (t, _c, n, k, s) =>
      if preMatches cfg env n k then
        match pyInt t with
        | some ts =>
          if now - ts < cfg.timeWindowSeconds then
            if s == "SUCCESS" then true
            else if s == "PENDING" then true
            else if s == "FAILED" then false
            else true
          else checkDuplicateLines cfg env now rest
        | none => checkDuplicateLines cfg env now rest
      else checkDuplicateLines cfg env now rest
    | none => checkDuplicateLines cfg env now rest

/-- The first record of the scan that matches the identity and whose age is
inside the retention window (the record `check_duplicate` decides on). -/
def firstQualifyingMatch (cfg : PreConfig) (env : PreEnv) (now : Int) :
    List String → Option HistoryRecord
  | [] => none
  | line :: rest =>
    match parseFields line with
    | some (t, c, n, k, s) =>
      if preMatches cfg env n k then
        match pyInt t with
        | some ts =>
          if now - ts < cfg.timeWindowSeconds then some ⟨ts, c, n, k, s⟩
          else firstQualifyingMatch cfg env now rest
        | none => firstQualifyingMatch cfg env now rest
      else firstQualifyingMatch cfg env now rest
    | none => firstQualifyingMatch cfg env now rest

/-- The line `add_to_history` appends (before the terminator). -/
def pendingLine (now : Int) (env : PreEnv) : String :=
  encodeRecord ⟨now, env.category, env.nzbName, env.duplicateKey, "PENDING"⟩

/-- The category short-circuit at the top of `run`. -/
def categoryIgnored (cfg : PreConfig) (env : PreEnv) : Bool :=
  (env.category != "" && cfg.ignoredCategories.contains env.category)
    || (env.category == "" && cfg.ignoreNoCategory)

/-- `print_sabnzbd_response`: seven blank lines to accept, a `"0"` sentinel
followed by six blank lines to reject. -/
def printSabnzbdResponse (accept : Bool) : List String :=
  if accept then List.replicate 7 "" else "0" :: List.replicate 6 ""

/-- Observable steps of one pre-queue activation. -/
inductive RunEvent where
  | sweep : RunEvent
  | matchCheck : RunEvent
  | append : String → RunEvent
  | respond : Bool → RunEvent
deriving DecidableEq

/-- One pre-queue activation (`PreQueueLoopPrevention.run`): category
short-circuit, expiry sweep, duplicate check, then reject or append-and-
accept.  `storeAvailable = false` models the store-unavailable error path:
every read raises inside its handler (the sweep leaves the file alone and
`check_duplicate` returns `False`) and the append attempt fails silently. -/
def preRun (cfg : PreConfig) (env : PreEnv) (now : Int) (storeAvailable : Bool)
    (store : List String) : List RunEvent × List String :=
  if categoryIgnored cfg env then
    ([RunEvent.respond true], store)
  else
    let cleaned := if storeAvailable then cleanOldEntries cfg.timeWindowSeconds now store else store
    if storeAvailable && checkDuplicateLines cfg env now cleaned then
      ([RunEvent.sweep, RunEvent.matchCheck, RunEvent.respond false], cleaned)
    else
      ([RunEvent.sweep, RunEvent.matchCheck, RunEvent.append (pendingLine now env),
        RunEvent.respond true],
       if storeAvailable then cleaned ++ [pendingLine now env] else cleaned)

/-! ### Completion reporter (`prevent_download_loops_postprocess.py`) -/

/-- Configuration fields consulted by the matcher of the post-process script. -/
structure PostConfig where
  useDuplicateKey : Bool
deriving DecidableEq

/-- SABnzbd environment fields consulted by the post-process script. -/
structure PostEnv where
  nzbName : String
  category : String
  duplicateKey : String
  ppStatus : String
  filename : String
deriving DecidableEq

/-- `_normalize_name`: `name.strip().lower().replace('.', ' ').replace('_', ' ')`
(lower-casing modelled on the ASCII range). -/
def normalizeName (nm : String) : String :=
  if nm == "" then ""
  else
    String.mk ((((stripChars nm.data).map Char.toLower).map
      (fun c => if c = '.' then ' ' else c)).map
      (fun c => if c = '_' then ' ' else c))

/-- Python `needle in hay` substring containment on character lists. -/
def listContainsSub (needle : List Char) : List Char → Bool
  | [] => needle.isEmpty
  | c :: t => needle.isPrefixOf (c :: t) || listContainsSub needle t

/-- Python `needle in hay` on strings. -/
def strIn (needle hay : String) : Bool := listContainsSub needle.data hay.data

/-- `_is_match`: the five-rule matcher of the completion reporter, evaluated
in priority order. -/
def isMatch (cfg : PostConfig) (env : PostEnv) (historyName historyKey : String) : Bool :=
  if cfg.useDuplicateKey && env.duplicateKey != "" && historyKey != ""
      && env.duplicateKey == historyKey then true
  else if env.nzbName != "" && historyName != "" && env.nzbName == historyName then true
  else if env.nzbName != "" && historyName != ""
      && (normalizeName env.nzbName != "" && normalizeName historyName != ""
          && normalizeName env.nzbName == normalizeName historyName) then true
  else if env.filename != "" && historyName != "" && env.filename == historyName then true
  else if env.nzbName != "" && historyName != ""
      && (strIn env.nzbName historyName || strIn historyName env.nzbName) then true
  else false

/-- Terminal status chosen by `update_status`: `SUCCESS` for the zero/OK
code, `FAILED` otherwise. -/
def finalStatus (env : PostEnv) : String :=
  if env.ppStatus == "0" then "SUCCESS" else "FAILED"

/-- Whether a line is an update candidate: five fields, identity match, and
status `PENDING` (the condition guarding the rewrite in `update_status`). -/
def lineIsPendingMatch (cfg : PostConfig) (env : PostEnv) (line : String) : Bool :=
  match parseFields line with
  | some (_t, _c, n, k, s) => isMatch cfg env n k && s == "PENDING"
  | none => false

/-- Index of the first update candidate in file order, if any. -/
def firstPendingMatchIdx (cfg : PostConfig) (env : PostEnv) : List String → Option Nat
  | [] => none
  | line :: rest =>
    if lineIsPendingMatch cfg env line then some 0
    else (firstPendingMatchIdx cfg env rest).map (· + 1)

/-- The replacement line `update_status` writes for the matched record:
original first four fields, new status. -/
def rewriteLine (fs : String) (line : String) : String :=
  match parseFields line with
  | some (t, c, n, k, _s) => t ++ "|" ++ c ++ "|" ++ n ++ "|" ++ k ++ "|" ++ fs
  | none => line

/-- The rewrite loop of `update_status`: malformed lines pass through
verbatim, the first `PENDING` identity match (when `updated` is still
false) is rewritten, everything else passes through verbatim. -/
def updateLoop (cfg : PostConfig) (env : PostEnv) (fs : String) :
    List String → Bool → List String × Bool
  | [], updated => ([], updated)
  | line :: rest, updated =>
    match parseFields line with
    | some (t, c, n, k, s) =>
      if isMatch cfg env n k && s == "PENDING" && !updated then
        let res := updateLoop cfg env fs rest true
        ((t ++ "|" ++ c ++ "|" ++ n ++ "|" ++ k ++ "|" ++ fs) :: res.1, res.2)
      else
        let res := updateLoop cfg env fs rest updated
        (line :: res.1, res.2)
    | none =>
      let res := updateLoop cfg env fs rest updated
      (line :: res.1, res.2)

/-- `update_status`: rewrite the store, returning the new lines and whether
a record was updated. -/
def updateStatus (cfg : PostConfig) (env : PostEnv) (lines : List String) :
    List String × Bool :=
  updateLoop cfg env (finalStatus env) lines false

/-! ### Helper lemmas: the completion reporter's rewrite loop -/

theorem updateLoop_of_updated (cfg : PostConfig) (env : PostEnv) (fs : String)
    (lines : List String) : updateLoop cfg env fs lines true = (lines, true) := by
  induction lines with
  | nil => rfl
  | cons line rest ih =>
    cases h : parseFields line with
    | none => simp [updateLoop, h, ih]
    | some q =>
      obtain ⟨t, c, n, k, s⟩ := q
      simp [updateLoop, h, ih]

theorem updateLoop_eq_firstPendingMatchIdx (cfg : PostConfig) (env : PostEnv) (fs : String)
    (lines : List String) :
    updateLoop cfg env fs lines false =
      match firstPendingMatchIdx cfg env lines with
      | some i => (lines.set i (rewriteLine fs (lines.getD i "")), true)
      | none => (lines, false) := by
  induction lines with
  | nil => rfl
  | cons line rest ih =>
    cases h : parseFields line with
    | none =>
      have hpm : lineIsPendingMatch cfg env line = false := by
        simp [lineIsPendingMatch, h]
      rw [show updateLoop cfg env fs (line :: rest) false
            = (line :: (updateLoop cfg env fs rest false).1,
               (updateLoop cfg env fs rest false).2) by simp [updateLoop, h]]
      rw [show firstPendingMatchIdx cfg env (line :: rest)
            = (firstPendingMatchIdx cfg env rest).map (· + 1) by
            simp [firstPendingMatchIdx, hpm]]
      rw [ih]
      cases hidx : firstPendingMatchIdx cfg env rest with
      | none => simp
      | some j => simp [List.set]
    | some q =>
      obtain ⟨t, c, n, k, s⟩ := q
      by_cases hb : (isMatch cfg env n k && s == "PENDING") = true
      · have hpm : lineIsPendingMatch cfg env line = true := by
          simp [lineIsPendingMatch, h, hb]
        have : updateLoop cfg env fs (line :: rest) false
            = ((t ++ "|" ++ c ++ "|" ++ n ++ "|" ++ k ++ "|" ++ fs)
                :: (updateLoop cfg env fs rest true).1,
               (updateLoop cfg env fs rest true).2) := by
          simp [updateLoop, h, hb]
        rw [this, updateLoop_of_updated]
        rw [show firstPendingMatchIdx cfg env (line :: rest) = some 0 by
          simp [firstPendingMatchIdx, hpm]]
        simp [List.set, rewriteLine, h]
      · have hpm : lineIsPendingMatch cfg env line = false := by
          simp only [lineIsPendingMatch, h]
          exact Bool.not_eq_true _ ▸ (by simpa using hb)
        have : updateLoop cfg env fs (line :: rest) false
            = (line :: (updateLoop cfg env fs rest false).1,
               (updateLoop cfg env fs rest false).2) := by
          simp [updateLoop, h, hb]
        rw [this]
        rw [show firstPendingMatchIdx cfg env (line :: rest)
              = (firstPendingMatchIdx cfg env rest).map (· + 1) by
              simp [firstPendingMatchIdx, hpm]]
        rw [ih]
        cases hidx : firstPendingMatchIdx cfg env rest with
        | none => simp
        | some j => simp [List.set]

theorem firstPendingMatchIdx_lt (cfg : PostConfig) (env : PostEnv)
    (lines : List String) (i : Nat)
    (h : firstPendingMatchIdx cfg env lines = some i) : i < lines.length := by
  induction lines generalizing i with
  | nil => simp [firstPendingMatchIdx] at h
  | cons line rest ih =>
    by_cases hpm : lineIsPendingMatch cfg env line = true
    · rw [show firstPendingMatchIdx cfg env (line :: rest) = some 0 by
        simp [firstPendingMatchIdx, hpm]] at h
      cases h
      simp
    · simp [firstPendingMatchIdx, hpm] at h
      obtain ⟨j, hj, rfl⟩ := h
      have := ih j hj
      simp
      omega

theorem firstPendingMatchIdx_spec (cfg : PostConfig) (env : PostEnv)
    (lines : List String) (i : Nat)
    (h : firstPendingMatchIdx cfg env lines = some i) :
    lineIsPendingMatch cfg env (lines.getD i "") = true := by
  induction lines generalizing i with
  | nil => simp [firstPendingMatchIdx] at h
  | cons line rest ih =>
    by_cases hpm : lineIsPendingMatch cfg env line = true
    · simp [firstPendingMatchIdx, hpm] at h
      subst h
      simpa using hpm
    · simp [firstPendingMatchIdx, hpm] at h
      obtain ⟨j, hj, rfl⟩ := h
      simpa using ih j hj

theorem firstPendingMatchIdx_eq_none (cfg : PostConfig) (env : PostEnv)
    (lines : List String)
    (h : ∀ line ∈ lines, lineIsPendingMatch cfg env line = false) :
    firstPendingMatchIdx cfg env lines = none := by
  induction lines with
  | nil => rfl
  | cons line rest ih =>
    have h0 : lineIsPendingMatch cfg env line = false := h line (by simp)
    have hrest := ih (fun l hl => h l (by simp [hl]))
    simp [firstPendingMatchIdx, h0, hrest]

/-! ### Helper lemmas: the admission gate's duplicate scan -/

theorem checkDuplicateLines_eq_firstQualifyingMatch (cfg : PreConfig) (env : PreEnv)
    (now : Int) (lines : List String) :
    checkDuplicateLines cfg env now lines =
      match firstQualifyingMatch cfg env now lines with
      | some r => !(r.status == "FAILED")
      | none => false := by
  induction lines with
  | nil => rfl
  | cons line rest ih =>
    cases h : parseFields line with
    | none => simp [checkDuplicateLines, firstQualifyingMatch, h, ih]
    | some q =>
      obtain ⟨t, c, n, k, s⟩ := q
      by_cases hm : preMatches cfg env n k = true
      · cases ht : pyInt t with
        | none => simp [checkDuplicateLines, firstQualifyingMatch, h, hm, ht, ih]
        | some ts =>
          by_cases hw : now - ts < cfg.timeWindowSeconds
          · rw [show checkDuplicateLines cfg env now (line :: rest)
                  = (if s == "SUCCESS" then true
                     else if s == "PENDING" then true
                     else if s == "FAILED" then false
                     else true) by simp [checkDuplicateLines, h, hm, ht, hw]]
            rw [show firstQualifyingMatch cfg env now (line :: rest)
                  = some ⟨ts, c, n, k, s⟩ by simp [firstQualifyingMatch, h, hm, ht, hw]]
            by_cases hF : s == "FAILED"
            · have : s = "FAILED" := by simpa [beq_iff_eq] using hF
              subst this
              simp
            · simp only [hF]
              by_cases hS : s == "SUCCESS" <;> by_cases hP : s == "PENDING" <;>
                simp [hS, hP, hF]
          · simp [checkDuplicateLines, firstQualifyingMatch, h, hm, ht, hw, ih]
      · simp [checkDuplicateLines, firstQualifyingMatch, h, hm, ih]

theorem firstQualifyingMatch_mem (cfg : PreConfig) (env : PreEnv) (now : Int)
    (lines : List String) (r : HistoryRecord)
    (h : firstQualifyingMatch cfg env now lines = some r) :
    ∃ line ∈ lines, recordOfLine line = some r := by
  induction lines with
  | nil => simp [firstQualifyingMatch] at h
  | cons line rest ih =>
    cases hp : parseFields line with
    | none =>
      rw [show firstQualifyingMatch cfg env now (line :: rest)
            = firstQualifyingMatch cfg env now rest by
            simp [firstQualifyingMatch, hp]] at h
      obtain ⟨l, hl, hrec⟩ := ih h
      exact ⟨l, by simp [hl], hrec⟩
    | some q =>
      obtain ⟨t, c, n, k, s⟩ := q
      by_cases hm : preMatches cfg env n k = true
      · cases ht : pyInt t with
        | none =>
          rw [show firstQualifyingMatch cfg env now (line :: rest)
                = firstQualifyingMatch cfg env now rest by
                simp [firstQualifyingMatch, hp, hm, ht]] at h
          obtain ⟨l, hl, hrec⟩ := ih h
          exact ⟨l, by simp [hl], hrec⟩
        | some ts =>
          by_cases hw : now - ts < cfg.timeWindowSeconds
          · rw [show firstQualifyingMatch cfg env now (line :: rest)
                  = some ⟨ts, c, n, k, s⟩ by
                  simp [firstQualifyingMatch, hp, hm, ht, hw]] at h
            refine ⟨line, by simp, ?_⟩
            rw [show recordOfLine line = some ⟨ts, c, n, k, s⟩ by
              simp [recordOfLine, hp, ht]]
            exact h
          · rw [show firstQualifyingMatch cfg env now (line :: rest)
                  = firstQualifyingMatch cfg env now rest by
                  simp [firstQualifyingMatch, hp, hm, ht, hw]] at h
            obtain ⟨l, hl, hrec⟩ := ih h
            exact ⟨l, by simp [hl], hrec⟩
      · rw [show firstQualifyingMatch cfg env now (line :: rest)
              = firstQualifyingMatch cfg env now rest by
              simp [firstQualifyingMatch, hp, hm]] at h
        obtain ⟨l, hl, hrec⟩ := ih h
        exact ⟨l, by simp [hl], hrec⟩

theorem lineIsPendingMatch_elim (cfg : PostConfig) (env : PostEnv) (line : String)
    (h : lineIsPendingMatch cfg env line = true) :
    ∃ t c n k, parseFields line = some (t, c, n, k, "PENDING")
      ∧ isMatch cfg env n k = true := by
  cases hp : parseFields line with
  | none => simp [lineIsPendingMatch, hp] at h
  | some q =>
    obtain ⟨t, c, n, k, s⟩ := q
    simp only [lineIsPendingMatch, hp, Bool.and_eq_true, beq_iff_eq] at h
    obtain ⟨hm, hs⟩ := h
    subst hs
    exact ⟨t, c, n, k, rfl, hm⟩

/-! ### Claim theorems -/

/-- C5: in every completion-report activation, only records currently in
state PENDING are eligible for update regardless of their age; at most one
record is updated (the first match in file order wins, at index `i`); and
the matched record's status is rewritten to SUCCESS exactly when the
host's result code is the zero/OK code, to FAILED otherwise. -/
theorem c5_completion_single_pending_update (cfg : PostConfig) (env : PostEnv)
    (lines : List String) (i : Nat)
    (h : firstPendingMatchIdx cfg env lines = some i) :
    (updateStatus cfg env lines).1
        = lines.set i (rewriteLine (finalStatus env) (lines.getD i ""))
      ∧ (updateStatus cfg env lines).2 = true
      ∧ (finalStatus env = "SUCCESS" ↔ env.ppStatus = "0")
      ∧ ∃ t c n k, parseFields (lines.getD i "") = some (t, c, n, k, "PENDING")
          ∧ isMatch cfg env n k = true := by
  have hmaster := updateLoop_eq_firstPendingMatchIdx cfg env (finalStatus env) lines
  rw [h] at hmaster
  have hspec := lineIsPendingMatch_elim cfg env (lines.getD i "")
    (firstPendingMatchIdx_spec cfg env lines i h)
  refine ⟨?_, ?_, ?_, hspec⟩
  · rw [show (updateStatus cfg env lines).1
        = (updateLoop cfg env (finalStatus env) lines false).1 from rfl, hmaster]
  · rw [show (updateStatus cfg env lines).2
        = (updateLoop cfg env (finalStatus env) lines false).2 from rfl, hmaster]
  · unfold finalStatus
    by_cases h0 : env.ppStatus == "0"
    · have : env.ppStatus = "0" := by simpa [beq_iff_eq] using h0
      simp [h0, this]
    · have : ¬ env.ppStatus = "0" := by simpa [beq_iff_eq] using h0
      simp [h0, this]

/-- Witness for C5 at a concrete store: the second line (the PENDING match)
is rewritten to SUCCESS under result code `"0"`. -/
theorem c5_completion_single_pending_update_witness :
    (updateStatus ⟨true⟩ ⟨"show", "tv", "key1", "0", ""⟩
        ["x|y", "100|tv|show|key1|PENDING"]).1
      = ["x|y", "100|tv|show|key1|SUCCESS"]
    ∧ (updateStatus ⟨true⟩ ⟨"show", "tv", "key1", "0", ""⟩
        ["x|y", "100|tv|show|key1|PENDING"]).2 = true := by
  have h := c5_completion_single_pending_update ⟨true⟩ ⟨"show", "tv", "key1", "0", ""⟩
    ["x|y", "100|tv|show|key1|PENDING"] 1 (by decide)
  exact ⟨h.1.trans (by decide), h.2.1⟩

/-- C6: the completion reporter's rewrite changes only the status field of
the single matched PENDING record (at index `i`): the rewritten line keeps
the original timestamp, category, name and duplicate-key fields, and every
other line of the store (parseable or not) is written back unchanged and
in the same position. -/
theorem c6_completion_rewrite_frame (cfg : PostConfig) (env : PostEnv)
    (lines : List String) (i : Nat)
    (h : firstPendingMatchIdx cfg env lines = some i) :
    ((updateStatus cfg env lines).1).length = lines.length
      ∧ (∀ j, j ≠ i → ((updateStatus cfg env lines).1).get? j = lines.get? j)
      ∧ ∃ t c n k, parseFields (lines.getD i "") = some (t, c, n, k, "PENDING")
          ∧ ((updateStatus cfg env lines).1).get? i
              = some (t ++ "|" ++ c ++ "|" ++ n ++ "|" ++ k ++ "|" ++ finalStatus env) := by
  have hlt := firstPendingMatchIdx_lt cfg env lines i h
  have hmaster := updateLoop_eq_firstPendingMatchIdx cfg env (finalStatus env) lines
  rw [h] at hmaster
  have h1 : (updateStatus cfg env lines).1
      = lines.set i (rewriteLine (finalStatus env) (lines.getD i "")) := by
    rw [show (updateStatus cfg env lines).1
        = (updateLoop cfg env (finalStatus env) lines false).1 from rfl, hmaster]
  obtain ⟨t, c, n, k, hp, _hm⟩ := lineIsPendingMatch_elim cfg env (lines.getD i "")
    (firstPendingMatchIdx_spec cfg env lines i h)
  refine ⟨by rw [h1]; exact List.length_set .., ?_, t, c, n, k, hp, ?_⟩
  · intro j hj
    rw [h1]
    exact List.get?_set_ne _ _ (Ne.symm hj)
  · have hrw : rewriteLine (finalStatus env) (lines.getD i "")
        = t ++ "|" ++ c ++ "|" ++ n ++ "|" ++ k ++ "|" ++ finalStatus env := by
      unfold rewriteLine
      rw [hp]
    rw [h1, List.get?_set_eq_of_lt _ (by simpa using hlt), hrw]

/-- Witness for C6 at a concrete store: the non-matching first line is
untouched and the matched line keeps its first four fields. -/
theorem c6_completion_rewrite_frame_witness :
    ((updateStatus ⟨true⟩ ⟨"Other Show", "", "", "1", ""⟩
        ["junk line", "7|movies|Other.Show|ok7|PENDING"]).1).get? 0 = some "junk line"
    ∧ ((updateStatus ⟨true⟩ ⟨"Other Show", "", "", "1", ""⟩
        ["junk line", "7|movies|Other.Show|ok7|PENDING"]).1).get? 1
        = some "7|movies|Other.Show|ok7|FAILED" := by
  have h := c6_completion_rewrite_frame ⟨true⟩ ⟨"Other Show", "", "", "1", ""⟩
    ["junk line", "7|movies|Other.Show|ok7|PENDING"] 1 (by decide)
  refine ⟨(h.2.1 0 (by decide)).trans (by decide), ?_⟩
  obtain ⟨t, c, n, k, hp, hres⟩ := h.2.2
  have : (t, c, n, k, ("PENDING" : String)) = ("7", "movies", "Other.Show", "ok7", "PENDING") := by
    have := hp.symm.trans (by decide : parseFields
      ((["junk line", "7|movies|Other.Show|ok7|PENDING"] : List String).getD 1 "")
        = some ("7", "movies", "Other.Show", "ok7", "PENDING"))
    simpa using this
  obtain ⟨rfl, rfl, rfl, rfl⟩ : t = "7" ∧ c = "movies" ∧ n = "Other.Show" ∧ k = "ok7" := by
    injection this with h1 h2
    injection h2 with h2 h3
    injection h3 with h3 h4
    injection h4 with h4 h5
    exact ⟨h1, h2, h3, h4⟩
  exact hres.trans (by decide)

/-- C7: when no line of the store both matches the identity and has status
PENDING, the completion reporter fabricates nothing: the store is written
back identical to what was read and the reporter reports not-found
(`updated = false`). -/
theorem c7_completion_not_found (cfg : PostConfig) (env : PostEnv)
    (lines : List String)
    (h : ∀ line ∈ lines, lineIsPendingMatch cfg env line = false) :
    updateStatus cfg env lines = (lines, false) := by
  have hidx := firstPendingMatchIdx_eq_none cfg env lines h
  have hmaster := updateLoop_eq_firstPendingMatchIdx cfg env (finalStatus env) lines
  rw [hidx] at hmaster
  exact hmaster

/-- Witness for C7: a store whose only records are SUCCESS/unparsable is
left untouched. -/
theorem c7_completion_not_found_witness :
    updateStatus ⟨true⟩ ⟨"show", "tv", "key1", "0", ""⟩
        ["100|tv|other|k2|SUCCESS", "garbage"]
      = (["100|tv|other|k2|SUCCESS", "garbage"], false) :=
  c7_completion_not_found ⟨true⟩ ⟨"show", "tv", "key1", "0", ""⟩
    ["100|tv|other|k2|SUCCESS", "garbage"] (by decide)

/-- C3: in an admission check (not short-circuited by category filtering),
when the record the duplicate scan settles on — the first identity match
whose age is within the retention window — has any status other than
FAILED (PENDING, SUCCESS, or unknown), the gate blocks: it emits the host
reject protocol and appends no new record to the store. -/
theorem c3_block_on_non_failed_match (cfg : PreConfig) (env : PreEnv) (now : Int)
    (store : List String) (r : HistoryRecord)
    (hcat : categoryIgnored cfg env = false)
    (hmatch : firstQualifyingMatch cfg env now
        (cleanOldEntries cfg.timeWindowSeconds now store) = some r)
    (hstatus : r.status ≠ "FAILED") :
    preRun cfg env now true store
      = ([RunEvent.sweep, RunEvent.matchCheck, RunEvent.respond false],
         cleanOldEntries cfg.timeWindowSeconds now store) := by
  have hdup : checkDuplicateLines cfg env now
      (cleanOldEntries cfg.timeWindowSeconds now store) = true := by
    rw [checkDuplicateLines_eq_firstQualifyingMatch, hmatch]
    simpa using hstatus
  simp [preRun, hcat, hdup]

/-- Witness for C3: a young PENDING record with the same duplicate key
makes the gate reject and leave the store without a new record. -/
theorem c3_block_on_non_failed_match_witness :
    preRun ⟨3600, true, [], false⟩ ⟨"show", "tv", "key1"⟩ 200 true
        ["100|tv|show|key1|PENDING"]
      = ([RunEvent.sweep, RunEvent.matchCheck, RunEvent.respond false],
         ["100|tv|show|key1|PENDING"]) := by
  have h := c3_block_on_non_failed_match ⟨3600, true, [], false⟩ ⟨"show", "tv", "key1"⟩
    200 ["100|tv|show|key1|PENDING"] ⟨100, "tv", "show", "key1", "PENDING"⟩
    (by decide) (by decide) (by decide)
  exact h.trans (by decide)

/-- C4: in an admission check (not short-circuited by category filtering),
when the record the duplicate scan settles on has status FAILED, the gate
admits: the swept store is written back with the old FAILED record still
present and unchanged, and exactly one new PENDING record carrying the
current timestamp, category, name and duplicate key is appended. -/
theorem c4_admit_on_failed_match (cfg : PreConfig) (env : PreEnv) (now : Int)
    (store : List String) (r : HistoryRecord)
    (hcat : categoryIgnored cfg env = false)
    (hmatch : firstQualifyingMatch cfg env now
        (cleanOldEntries cfg.timeWindowSeconds now store) = some r)
    (hstatus : r.status = "FAILED") :
    preRun cfg env now true store
        = ([RunEvent.sweep, RunEvent.matchCheck, RunEvent.append (pendingLine now env),
            RunEvent.respond true],
           cleanOldEntries cfg.timeWindowSeconds now store ++ [pendingLine now env])
      ∧ (∃ line ∈ cleanOldEntries cfg.timeWindowSeconds now store,
          recordOfLine line = some r)
      ∧ pendingLine now env
          = encodeRecord ⟨now, env.category, env.nzbName, env.duplicateKey, "PENDING"⟩ := by
  have hdup : checkDuplicateLines cfg env now
      (cleanOldEntries cfg.timeWindowSeconds now store) = false := by
    rw [checkDuplicateLines_eq_firstQualifyingMatch, hmatch]
    simp [hstatus]
  refine ⟨by simp [preRun, hcat, hdup], ?_, rfl⟩
  exact firstQualifyingMatch_mem cfg env now _ r hmatch

/-- Witness for C4: a young FAILED record with the same duplicate key lets
the gate admit; the store afterwards holds both the FAILED record and the
freshly appended PENDING record. -/
theorem c4_admit_on_failed_match_witness :
    preRun ⟨3600, true, [], false⟩ ⟨"show", "tv", "key1"⟩ 200 true
        ["100|tv|show|key1|FAILED"]
      = ([RunEvent.sweep, RunEvent.matchCheck,
          RunEvent.append "200|tv|show|key1|PENDING", RunEvent.respond true],
         ["100|tv|show|key1|FAILED", "200|tv|show|key1|PENDING"]) := by
  have h := c4_admit_on_failed_match ⟨3600, true, [], false⟩ ⟨"show", "tv", "key1"⟩
    200 ["100|tv|show|key1|FAILED"] ⟨100, "tv", "show", "key1", "FAILED"⟩
    (by decide) (by decide) (by decide)
  exact h.1.trans (by decide)

/-- C10: when the history store cannot be read during the admission check,
the error is swallowed: the duplicate check reports no duplicate, the gate
emits the host accept protocol, still attempts to append a new PENDING
record, and never blocks. -/
theorem c10_store_unavailable_admits (cfg : PreConfig) (env : PreEnv) (now : Int)
    (store : List String)
    (hcat : categoryIgnored cfg env = false) :
    preRun cfg env now false store
      = ([RunEvent.sweep, RunEvent.matchCheck, RunEvent.append (pendingLine now env),
          RunEvent.respond true], store) := by
  simp [preRun, hcat]

/-- Witness for C10: with the store unavailable the gate accepts even though
the (unreadable) store holds a young PENDING duplicate. -/
theorem c10_store_unavailable_admits_witness :
    preRun ⟨3600, true, [], false⟩ ⟨"show", "tv", "key1"⟩ 200 false
        ["100|tv|show|key1|PENDING"]
      = ([RunEvent.sweep, RunEvent.matchCheck,
          RunEvent.append "200|tv|show|key1|PENDING", RunEvent.respond true],
         ["100|tv|show|key1|PENDING"]) := by
  have h := c10_store_unavailable_admits ⟨3600, true, [], false⟩ ⟨"show", "tv", "key1"⟩
    200 ["100|tv|show|key1|PENDING"] (by decide)
  exact h.trans (by decide)

/-- C8 counterexample: an admission-check activation whose category is in
the ignore list performs no expiry sweep at all, refuting "the expiry sweep
is performed exactly once in every admission-check activation". -/
theorem c8_counterexample :
    (preRun ⟨3600, true, ["tv"], false⟩ ⟨"show", "tv", ""⟩ 200 true
        ["100|tv|old|k|PENDING"]).1 = [RunEvent.respond true]
    ∧ ¬ ((preRun ⟨3600, true, ["tv"], false⟩ ⟨"show", "tv", ""⟩ 200 true
        ["100|tv|old|k|PENDING"]).1.count RunEvent.sweep = 1) := by
  decide

/-- C8 (amended): in every admission-check activation that is not
short-circuited by the category filter, the expiry sweep is performed
exactly once, as the first step, before any identity matching. -/
theorem c8_sweep_first_unless_ignored (cfg : PreConfig) (env : PreEnv) (now : Int)
    (storeAvailable : Bool) (store : List String)
    (hcat : categoryIgnored cfg env = false) :
    ∃ rest, (preRun cfg env now storeAvailable store).1 = RunEvent.sweep :: rest
      ∧ RunEvent.sweep ∉ rest
      ∧ RunEvent.matchCheck ∈ rest := by
  by_cases hdup : (storeAvailable && checkDuplicateLines cfg env now
      (if storeAvailable then cleanOldEntries cfg.timeWindowSeconds now store else store)) = true
  · refine ⟨[RunEvent.matchCheck, RunEvent.respond false], ?_, by decide, by decide⟩
    simp only [preRun, hcat, Bool.false_eq_true, if_false]
    rw [if_pos hdup]
  · refine ⟨[RunEvent.matchCheck, RunEvent.append (pendingLine now env),
      RunEvent.respond true], ?_, by simp, by simp⟩
    simp only [preRun, hcat, Bool.false_eq_true, if_false]
    rw [if_neg hdup]

/-- Witness for C8 (amended): a non-ignored activation starts with exactly
one sweep event. -/
theorem c8_sweep_first_unless_ignored_witness :
    ∃ rest, (preRun ⟨3600, true, [], false⟩ ⟨"show", "tv", ""⟩ 200 true []).1
        = RunEvent.sweep :: rest
      ∧ RunEvent.sweep ∉ rest
      ∧ RunEvent.matchCheck ∈ rest :=
  c8_sweep_first_unless_ignored ⟨3600, true, [], false⟩ ⟨"show", "tv", ""⟩ 200 true []
    (by decide)

/-- C1 counterexample: candidate and record names are exactly equal
(both `"A"`) and the duplicate-key rule is not satisfied (the stored key
is empty, the incoming key is `"k"`), yet the admission matcher reports no
match — refuting "the admission matcher reports a match whenever the
duplicate-key rule is not satisfied" and the claimed name/normalized/
substring fallback rules for the admission path. -/
theorem c1_counterexample :
    ("" : String) ≠ "k"
    ∧ preMatches ⟨60, true, [], false⟩ ⟨"A", "", "k"⟩ "A" "" = false := by
  decide

/-- C1 (amended): the admission matcher succeeds exactly when the
duplicate-key rule holds (matching enabled, both keys non-empty and
equal), or the incoming duplicate key is empty and the names are exactly
equal; the normalized-name, filename and substring rules exist only in the
completion-report matcher. -/
theorem c1_admission_match_characterization (cfg : PreConfig) (env : PreEnv)
    (nm dupeKey : String) :
    preMatches cfg env nm dupeKey = true ↔
      ((cfg.useDuplicateKey = true ∧ env.duplicateKey ≠ "" ∧ dupeKey ≠ ""
          ∧ dupeKey = env.duplicateKey)
        ∨ (env.duplicateKey = "" ∧ nm = env.nzbName)) := by
  unfold preMatches
  by_cases h1 : (cfg.useDuplicateKey && env.duplicateKey != "" && dupeKey != ""
      && dupeKey == env.duplicateKey) = true
  · rw [if_pos h1]
    simp only [Bool.and_eq_true, bne_iff_ne, beq_iff_eq] at h1
    exact ⟨fun _ => Or.inl ⟨h1.1.1.1, h1.1.1.2, h1.1.2, h1.2⟩, fun _ => rfl⟩
  · rw [if_neg h1]
    by_cases h2 : (env.duplicateKey == "" && nm == env.nzbName) = true
    · rw [if_pos h2]
      simp only [Bool.and_eq_true, beq_iff_eq] at h2
      exact ⟨fun _ => Or.inr h2, fun _ => rfl⟩
    · rw [if_neg h2]
      simp only [Bool.and_eq_true, bne_iff_ne, beq_iff_eq] at h1 h2
      constructor
      · intro hf
        exact absurd hf (by simp)
      · rintro (⟨ha, hb, hc, hd⟩ | ⟨ha, hb⟩)
        · exact absurd ⟨⟨⟨ha, hb⟩, hc⟩, hd⟩ h1
        · exact absurd ⟨ha, hb⟩ h2

/-- C2 counterexample: a four-field line whose timestamp is inside the
window is kept by the expiry sweep, refuting "every line that does not
parse into exactly five pipe-delimited fields is dropped during an expiry
sweep" (the sweep only requires four fields). -/
theorem c2_counterexample :
    (lineParts "100|tv|show|key").length = 4
    ∧ cleanOldEntries 1000 100 ["100|tv|show|key"] = ["100|tv|show|key"] := by
  decide

theorem parseFields_some_length (line : String)
    (q : String × String × String × String × String)
    (h : parseFields line = some q) : 5 ≤ (lineParts line).length := by
  unfold parseFields at h
  rcases hl : lineParts line with _ | ⟨t, _ | ⟨c, _ | ⟨n, _ | ⟨k, _ | ⟨s, rest⟩⟩⟩⟩⟩ <;>
    rw [hl] at h <;> simp_all

/-- C2 (amended): during an expiry sweep a line is kept exactly when it has
at least four pipe-delimited fields, its first field parses as an integer,
and `now - timestamp < windowSeconds` (so four-field and over-five-field
lines with young integer timestamps survive, everything else is dropped);
during the completion reporter's rewrite, every line with fewer than five
fields is preserved verbatim in its position. -/
theorem c2_sweep_drops_reporter_preserves (w now : Int) (cfg : PostConfig)
    (env : PostEnv) (lines : List String) :
    (∀ line, line ∈ cleanOldEntries w now lines ↔
        (line ∈ lines ∧ 4 ≤ (lineParts line).length
          ∧ ∃ ts, pyInt ((lineParts line).headD "") = some ts ∧ now - ts < w))
    ∧ (∀ i line, lines.get? i = some line → (lineParts line).length < 5 →
        ((updateStatus cfg env lines).1).get? i = some line) := by
  constructor
  · intro line
    rw [cleanOldEntries, List.mem_filter]
    constructor
    · rintro ⟨hmem, hkeep⟩
      refine ⟨hmem, ?_⟩
      simp only [keepEntry] at hkeep
      by_cases h4 : (lineParts line).length < 4
      · rw [if_pos h4] at hkeep
        exact absurd hkeep (by simp)
      · rw [if_neg h4] at hkeep
        cases ht : pyInt ((lineParts line).headD "") with
        | none =>
          rw [ht] at hkeep
          exact absurd hkeep (by simp)
        | some ts =>
          rw [ht] at hkeep
          exact ⟨by omega, ts, rfl, by simpa using hkeep⟩
    · rintro ⟨hmem, h4, ts, ht, hw⟩
      refine ⟨hmem, ?_⟩
      simp only [keepEntry]
      rw [if_neg (by omega), ht]
      simpa using hw
  · intro i line hget hlen
    have hmaster := updateLoop_eq_firstPendingMatchIdx cfg env (finalStatus env) lines
    cases hidx : firstPendingMatchIdx cfg env lines with
    | none =>
      rw [hidx] at hmaster
      rw [show (updateStatus cfg env lines).1
          = (updateLoop cfg env (finalStatus env) lines false).1 from rfl, hmaster]
      exact hget
    | some j =>
      rw [hidx] at hmaster
      rw [show (updateStatus cfg env lines).1
          = (updateLoop cfg env (finalStatus env) lines false).1 from rfl, hmaster]
      by_cases hij : i = j
      · exfalso
        subst hij
        obtain ⟨t, c, n, k, hp, _⟩ := lineIsPendingMatch_elim cfg env (lines.getD i "")
          (firstPendingMatchIdx_spec cfg env lines i hidx)
        have hline : lines.getD i "" = line := by
          unfold List.getD
          rw [show lines.get? i = some line from hget]
          rfl
        rw [hline] at hp
        have := parseFields_some_length line _ hp
        omega
      · rw [List.get?_set_ne _ _ (Ne.symm hij)]
        exact hget

/-- Witness for C2 (amended): a two-field line is dropped by the sweep and
preserved verbatim by the reporter. -/
theorem c2_sweep_drops_reporter_preserves_witness :
    (("x|y" : String) ∈ cleanOldEntries 1000 100 ["x|y"] ↔
      (("x|y" : String) ∈ (["x|y"] : List String) ∧ 4 ≤ (lineParts "x|y").length
        ∧ ∃ ts, pyInt ((lineParts "x|y").headD "") = some ts ∧ 100 - ts < 1000))
    ∧ ((updateStatus ⟨true⟩ ⟨"show", "tv", "key1", "0", ""⟩ ["x|y"]).1).get? 0
        = some "x|y" := by
  have h := c2_sweep_drops_reporter_preserves 1000 100 ⟨true⟩
    ⟨"show", "tv", "key1", "0", ""⟩ ["x|y"]
  exact ⟨h.1 "x|y", h.2 0 "x|y" (by decide) (by decide)⟩

/-! ### Helper lemmas: the record codec round trip -/

theorem digitChar_isDigit (d : Nat) (h : d < 10) : (digitChar d).isDigit = true := by
  interval_cases d <;> decide

theorem digitChar_not_ws (d : Nat) (h : d < 10) : isPyWs (digitChar d) = false := by
  interval_cases d <;> decide

theorem digitChar_ne_pipe (d : Nat) (h : d < 10) : digitChar d ≠ '|' := by
  interval_cases d <;> decide

theorem digitVal_digitChar (d : Nat) (h : d < 10) : digitVal (digitChar d) = d := by
  interval_cases d <;> decide

theorem isDigit_not_ws (c : Char) (h : c.isDigit = true) : isPyWs c = false := by
  by_contra hw
  rw [Bool.not_eq_false] at hw
  simp only [isPyWs, Bool.or_eq_true, decide_eq_true_eq] at hw
  rcases hw with ((((rfl | rfl) | rfl) | rfl) | rfl) | rfl <;> exact absurd h (by decide)

theorem isDigit_ne_pipe (c : Char) (h : c.isDigit = true) : c ≠ '|' := by
  intro he
  subst he
  exact absurd h (by decide)

theorem digitsToNat_concat (xs : List Char) (c : Char) :
    digitsToNat (xs ++ [c]) = digitsToNat xs * 10 + digitVal c := by
  unfold digitsToNat
  rw [List.foldl_append]
  rfl

theorem natCharsAux_correct (fuel : Nat) : ∀ n, n < fuel →
    natCharsAux fuel n ≠ []
      ∧ (∀ c ∈ natCharsAux fuel n, c.isDigit = true)
      ∧ digitsToNat (natCharsAux fuel n) = n := by
  induction fuel with
  | zero => intro n h; omega
  | succ f ih =>
    intro n h
    unfold natCharsAux
    by_cases h10 : n < 10
    · rw [if_pos h10]
      refine ⟨by simp, ?_, ?_⟩
      · intro c hc
        rw [List.mem_singleton] at hc
        subst hc
        exact digitChar_isDigit n h10
      · show digitsToNat ([] ++ [digitChar n]) = n
        rw [digitsToNat_concat, digitVal_digitChar n h10]
        simp [digitsToNat]
    · rw [if_neg h10]
      have hdiv : n / 10 < f := by omega
      obtain ⟨hne, hdig, hval⟩ := ih (n / 10) hdiv
      refine ⟨by simp, ?_, ?_⟩
      · intro c hc
        rw [List.mem_append] at hc
        rcases hc with hc | hc
        · exact hdig c hc
        · rw [List.mem_singleton] at hc
          subst hc
          exact digitChar_isDigit (n % 10) (by omega)
      · rw [digitsToNat_concat, hval, digitVal_digitChar (n % 10) (by omega)]
        omega

theorem natChars_ne_nil (n : Nat) : natChars n ≠ [] :=
  (natCharsAux_correct (n + 1) n (by omega)).1

theorem natChars_all_digits (n : Nat) : ∀ c ∈ natChars n, c.isDigit = true :=
  (natCharsAux_correct (n + 1) n (by omega)).2.1

theorem digitsToNat_natChars (n : Nat) : digitsToNat (natChars n) = n :=
  (natCharsAux_correct (n + 1) n (by omega)).2.2

theorem intChars_ne_nil (i : Int) : intChars i ≠ [] := by
  unfold intChars
  by_cases h : i < 0
  · rw [if_pos h]; simp
  · rw [if_neg h]; exact natChars_ne_nil _

theorem intChars_not_ws (i : Int) : ∀ c ∈ intChars i, isPyWs c = false := by
  unfold intChars
  by_cases h : i < 0
  · rw [if_pos h]
    intro c hc
    rw [List.mem_cons] at hc
    rcases hc with rfl | hc
    · decide
    · exact isDigit_not_ws c (natChars_all_digits _ c hc)
  · rw [if_neg h]
    intro c hc
    exact isDigit_not_ws c (natChars_all_digits _ c hc)

theorem intChars_no_pipe (i : Int) : '|' ∉ intChars i := by
  unfold intChars
  intro hc
  by_cases h : i < 0
  · rw [if_pos h, List.mem_cons] at hc
    rcases hc with hc | hc
    · exact absurd hc.symm (by decide)
    · exact isDigit_ne_pipe '|' (natChars_all_digits _ _ hc) rfl
  · rw [if_neg h] at hc
    exact isDigit_ne_pipe '|' (natChars_all_digits _ _ hc) rfl

theorem dropWhile_eq_self_of_head (p : Char → Bool) (l : List Char)
    (h : ∀ c ∈ l.head?, p c = false) : l.dropWhile p = l := by
  cases l with
  | nil => rfl
  | cons a t =>
    have := h a (by simp)
    simp [List.dropWhile, this]

theorem dropWhile_cons_of_ws (x : Char) (l : List Char) (h : isPyWs x = true) :
    List.dropWhile isPyWs (x :: l) = List.dropWhile isPyWs l := by
  simp [List.dropWhile, h]

theorem head?_reverse_eq_getLast? (l : List Char) : l.reverse.head? = l.getLast? := by
  induction l with
  | nil => rfl
  | cons a t ih =>
    cases ht : t.reverse with
    | nil =>
      have hnil : t = [] := by simpa using congrArg List.reverse ht
      subst hnil
      rfl
    | cons b rb =>
      have h1 : (a :: t).reverse = b :: (rb ++ [a]) := by
        rw [List.reverse_cons, ht]
        rfl
      have ht' : t ≠ [] := by
        intro hn
        subst hn
        simp at ht
      rw [ht] at ih
      obtain ⟨c, l', rfl⟩ := List.exists_cons_of_ne_nil ht'
      rw [h1, List.getLast?_cons_cons]
      simpa using ih

theorem stripChars_append_newline (cs : List Char)
    (hh : ∀ c ∈ cs.head?, isPyWs c = false)
    (hl : ∀ c ∈ cs.getLast?, isPyWs c = false) :
    stripChars (cs ++ ['\n']) = cs := by
  cases cs with
  | nil => rfl
  | cons a t =>
    have ha : isPyWs a = false := hh a (by simp)
    have h1 : List.dropWhile isPyWs (a :: (t ++ ['\n'])) = a :: (t ++ ['\n']) := by
      simp [List.dropWhile, ha]
    have h4 : List.dropWhile isPyWs ((a :: t).reverse) = (a :: t).reverse := by
      apply dropWhile_eq_self_of_head
      intro c hc
      rw [head?_reverse_eq_getLast?] at hc
      exact hl c hc
    show ((List.dropWhile isPyWs (a :: (t ++ ['\n']))).reverse.dropWhile isPyWs).reverse
        = a :: t
    rw [h1]
    rw [show (a :: (t ++ ['\n'])).reverse = '\n' :: (a :: t).reverse by
      rw [show a :: (t ++ ['\n']) = (a :: t) ++ ['\n'] from rfl, List.reverse_append]
      rfl]
    rw [dropWhile_cons_of_ws '\n' ((a :: t).reverse) (by decide)]
    rw [h4, List.reverse_reverse]

theorem splitPipe_no_pipe (cs : List Char) (h : '|' ∉ cs) : splitPipe cs = [cs] := by
  induction cs with
  | nil => rfl
  | cons a t ih =>
    have ha : ¬ a = '|' := fun he => h (by rw [he]; simp)
    have ht : '|' ∉ t := fun hm => h (by simp [hm])
    unfold splitPipe
    rw [if_neg ha, ih ht]

theorem splitPipe_append (a b : List Char) (h : '|' ∉ a) :
    splitPipe (a ++ '|' :: b) = a :: splitPipe b := by
  induction a with
  | nil =>
    show splitPipe ('|' :: b) = [] :: splitPipe b
    simp [splitPipe]
  | cons x t ih =>
    have hx : ¬ x = '|' := fun he => h (by rw [he]; simp)
    have ht : '|' ∉ t := fun hm => h (by simp [hm])
    show splitPipe (x :: (t ++ '|' :: b)) = (x :: t) :: splitPipe b
    rw [show splitPipe (x :: (t ++ '|' :: b))
        = if x = '|' then [] :: splitPipe (t ++ '|' :: b)
          else match splitPipe (t ++ '|' :: b) with
            | [] => [[x]]
            | f :: fs => (x :: f) :: fs from rfl]
    rw [if_neg hx, ih ht]

theorem stripChars_eq_self_of_no_ws (cs : List Char)
    (h : ∀ c ∈ cs, isPyWs c = false) : stripChars cs = cs := by
  have h1 : List.dropWhile isPyWs cs = cs := by
    apply dropWhile_eq_self_of_head
    intro c hc
    exact h c (List.mem_of_mem_head? hc)
  have h2 : List.dropWhile isPyWs cs.reverse = cs.reverse := by
    apply dropWhile_eq_self_of_head
    intro c hc
    rw [head?_reverse_eq_getLast?] at hc
    exact h c (List.mem_of_mem_getLast? hc)
  show ((List.dropWhile isPyWs cs).reverse.dropWhile isPyWs).reverse = cs
  rw [h1, h2, List.reverse_reverse]

theorem pyInt_of_digits (cs : List Char) (h1 : cs ≠ [])
    (h2 : ∀ c ∈ cs, c.isDigit = true) :
    pyInt (String.mk cs) = some ((digitsToNat cs : Int)) := by
  unfold pyInt
  rw [show (String.mk cs).data = cs from rfl]
  rw [stripChars_eq_self_of_no_ws cs (fun c hc => isDigit_not_ws c (h2 c hc))]
  cases cs with
  | nil => exact absurd rfl h1
  | cons c0 t =>
    have hc0 : c0.isDigit = true := h2 c0 (by simp)
    have hminus : c0 ≠ '-' := fun he => by rw [he] at hc0; exact absurd hc0 (by decide)
    have hplus : c0 ≠ '+' := fun he => by rw [he] at hc0; exact absurd hc0 (by decide)
    split
    · next rest heq => exact absurd (by injection heq) hminus
    · next rest heq => exact absurd (by injection heq) hplus
    · next _ _ =>
      rw [if_pos]
      simp only [Bool.and_eq_true, decide_eq_true_eq, List.all_eq_true]
      exact ⟨by simp, fun c hc => h2 c hc⟩

theorem pyInt_intChars (i : Int) : pyInt (String.mk (intChars i)) = some i := by
  by_cases h : i < 0
  · unfold pyInt
    rw [show (String.mk (intChars i)).data = intChars i from rfl]
    rw [stripChars_eq_self_of_no_ws _ (intChars_not_ws i)]
    rw [show intChars i = '-' :: natChars i.natAbs by unfold intChars; rw [if_pos h]]
    split
    · next rest heq =>
      have hrest : natChars i.natAbs = rest := by injection heq
      rw [← hrest]
      rw [if_pos]
      · rw [digitsToNat_natChars]
        have : (i.natAbs : Int) = -i := by omega
        rw [this]
        simp
      · simp only [Bool.and_eq_true, decide_eq_true_eq, List.all_eq_true]
        exact ⟨natChars_ne_nil _, fun c hc => natChars_all_digits _ c hc⟩
    · next rest heq => exact absurd (by injection heq) (by decide : ('-' : Char) ≠ '+')
    · next hne _ => exact absurd rfl (hne (natChars i.natAbs))
  · rw [show intChars i = natChars i.toNat by unfold intChars; rw [if_neg h]]
    rw [pyInt_of_digits _ (natChars_ne_nil _) (natChars_all_digits _)]
    rw [digitsToNat_natChars]
    congr 1
    omega

theorem getLast?_cons_append_cons (a b : Char) (l1 l2 : List Char) :
    (a :: (l1 ++ b :: l2)).getLast? = (b :: l2).getLast? := by
  rw [show a :: (l1 ++ b :: l2) = (a :: l1) ++ b :: l2 from rfl]
  exact List.getLast?_append_cons (a :: l1) b l2

/-- C9 counterexample: the record `(0, "", "x", "", "PENDING ")` has no `|`
and no line terminator in any field, yet decoding its encoded line yields a
different record — the decoder strips all surrounding whitespace, so the
trailing space of the status field is lost. -/
theorem c9_counterexample :
    recordOfLine (encodeLine ⟨0, "", "x", "", "PENDING "⟩)
        = some ⟨0, "", "x", "", "PENDING"⟩
      ∧ some (⟨0, "", "x", "", "PENDING"⟩ : HistoryRecord)
        ≠ some (⟨0, "", "x", "", "PENDING "⟩ : HistoryRecord) := by
  decide

/-- C9 (amended): for every record whose fields contain neither the `|`
delimiter nor a line terminator, and whose status field does not end with
a whitespace character, decoding the encoded line yields the original
record: `decode (encode r) = r`. -/
theorem c9_codec_roundtrip (r : HistoryRecord)
    (hc : '|' ∉ r.category.data) (hn : '|' ∉ r.nzbName.data)
    (hk : '|' ∉ r.dupKey.data) (hs : '|' ∉ r.status.data)
    (hlast : ∀ c ∈ r.status.data.getLast?, isPyWs c = false) :
    recordOfLine (encodeLine r) = some r := by
  have hdata : (encodeLine r).data
      = (intChars r.timestamp ++ '|' :: (r.category.data ++ '|' :: (r.nzbName.data
          ++ '|' :: (r.dupKey.data ++ '|' :: r.status.data)))) ++ ['\n'] := by
    show ((((((((intChars r.timestamp ++ ['|']) ++ r.category.data) ++ ['|'])
        ++ r.nzbName.data) ++ ['|']) ++ r.dupKey.data) ++ ['|']) ++ r.status.data)
        ++ ['\n'] = _
    simp [List.append_assoc]
  have hhead : ∀ c ∈ (intChars r.timestamp ++ '|' :: (r.category.data
      ++ '|' :: (r.nzbName.data ++ '|' :: (r.dupKey.data
      ++ '|' :: r.status.data)))).head?, isPyWs c = false := by
    obtain ⟨d, ds, hds⟩ := List.exists_cons_of_ne_nil (intChars_ne_nil r.timestamp)
    rw [hds]
    intro c hcm
    rw [show (d :: ds) ++ '|' :: (r.category.data ++ '|' :: (r.nzbName.data
        ++ '|' :: (r.dupKey.data ++ '|' :: r.status.data)))
        = d :: (ds ++ '|' :: (r.category.data ++ '|' :: (r.nzbName.data
        ++ '|' :: (r.dupKey.data ++ '|' :: r.status.data)))) from rfl,
      List.head?_cons, Option.mem_some_iff] at hcm
    subst hcm
    exact intChars_not_ws r.timestamp d (by rw [hds]; simp)
  have hlast2 : ∀ c ∈ (intChars r.timestamp ++ '|' :: (r.category.data
      ++ '|' :: (r.nzbName.data ++ '|' :: (r.dupKey.data
      ++ '|' :: r.status.data)))).getLast?, isPyWs c = false := by
    rw [List.getLast?_append_cons, getLast?_cons_append_cons,
      getLast?_cons_append_cons, getLast?_cons_append_cons]
    cases hsd : r.status.data with
    | nil =>
      intro c hcm
      rw [List.getLast?_singleton, Option.mem_some_iff] at hcm
      subst hcm
      decide
    | cons x xs =>
      rw [List.getLast?_cons_cons]
      intro c hcm
      exact hlast c (by rw [hsd]; exact hcm)
  have hstrip : stripChars ((encodeLine r).data)
      = intChars r.timestamp ++ '|' :: (r.category.data ++ '|' :: (r.nzbName.data
          ++ '|' :: (r.dupKey.data ++ '|' :: r.status.data))) := by
    rw [hdata]
    exact stripChars_append_newline _ hhead hlast2
  have hsplit : splitPipe (intChars r.timestamp ++ '|' :: (r.category.data
      ++ '|' :: (r.nzbName.data ++ '|' :: (r.dupKey.data ++ '|' :: r.status.data))))
      = [intChars r.timestamp, r.category.data, r.nzbName.data, r.dupKey.data,
         r.status.data] := by
    rw [splitPipe_append _ _ (intChars_no_pipe r.timestamp),
      splitPipe_append _ _ hc, splitPipe_append _ _ hn, splitPipe_append _ _ hk,
      splitPipe_no_pipe _ hs]
  have hparts : lineParts (encodeLine r)
      = [String.mk (intChars r.timestamp), r.category, r.nzbName, r.dupKey,
         r.status] := by
    unfold lineParts
    rw [hstrip, hsplit]
    rfl
  have hfields : parseFields (encodeLine r)
      = some (String.mk (intChars r.timestamp), r.category, r.nzbName, r.dupKey,
          r.status) := by
    unfold parseFields
    rw [hparts]
  unfold recordOfLine
  rw [hfields]
  show (match pyInt (String.mk (intChars r.timestamp)) with
    | some ts => some (⟨ts, r.category, r.nzbName, r.dupKey, r.status⟩ : HistoryRecord)
    | none => none) = some r
  rw [pyInt_intChars]

/-- Witness for C9 (amended): a concrete well-formed record round-trips. -/
theorem c9_codec_roundtrip_witness :
    recordOfLine (encodeLine ⟨123, "tv", "Show Name S01", "key-1", "PENDING"⟩)
      = some ⟨123, "tv", "Show Name S01", "key-1", "PENDING"⟩ :=
  c9_codec_roundtrip ⟨123, "tv", "Show Name S01", "key-1", "PENDING"⟩
    (by decide) (by decide) (by decide) (by decide) (by decide)

end LoopPrevention
